import Mathlib

/-!
Shallow embedding of the ServiceKit HTTP routing/dispatch layer
(src/index.ts): response model (`Reply`), path matcher (`pathToMatcher`),
route registry ordering (`sortRoutes`), body buffering (`readAll`) and the
request lifecycle coordinator (`handleRequest`).  Byte buffers are modelled
as lists of naturals, JavaScript records as association lists, and the
external library functions used by the source (`Buffer.from(s, 'utf-8')`,
`JSON.stringify`, `String.prototype.toUpperCase`, `Array.prototype.sort`)
are modelled by executable Lean functions with the same behaviour on the
fragment the source exercises.
-/

namespace ServiceKit

/-- Byte buffers (`Buffer`) are modelled as lists of naturals (byte values). -/
abbrev Bytes := List Nat

/-- UTF-8 encoding of a single Unicode code point. -/
def utf8Char (n : Nat) : List Nat :=
  if n < 0x80 then [n]
  else if n < 0x800 then [0xC0 + n / 64, 0x80 + n % 64]
  else if n < 0x10000 then [0xE0 + n / 4096, 0x80 + (n / 64) % 64, 0x80 + n % 64]
  else [0xF0 + n / 262144, 0x80 + (n / 4096) % 64, 0x80 + (n / 64) % 64, 0x80 + n % 64]

/-- Model of `Buffer.from(s, 'utf-8')`: the UTF-8 bytes of a string. -/
def utf8 (s : String) : Bytes :=
  s.data.foldr (fun c acc => utf8Char c.toNat ++ acc) []

/-- JSON values a handler can return as a structured payload.  JavaScript
numbers are restricted to the integers, on which `JSON.stringify` prints
plain decimal notation. -/
inductive Json where
  | str (s : String)
  | num (n : Int)
  | bool (b : Bool)
  | null
  | arr (items : List Json)
  | obj (fields : List (String × Json))

/-- One hexadecimal digit, lower case, as used by `JSON.stringify` in
`\u00XX` escapes. -/
def hexDigit (n : Nat) : String :=
  if n < 10 then String.singleton (Char.ofNat (48 + n))
  else String.singleton (Char.ofNat (87 + n))

/-- Escaping of a single character inside a JSON string literal, following
`JSON.stringify`: quote, backslash, the short control escapes, and `\u00XX`
for the remaining control characters. -/
def escapeJsonChar (c : Char) : String :=
  if c = '"' then "\\\""
  else if c = '\\' then "\\\\"
  else if c = '\n' then "\\n"
  else if c = '\r' then "\\r"
  else if c = '\t' then "\\t"
  else if c.toNat = 8 then "\\b"
  else if c.toNat = 12 then "\\f"
  else if c.toNat < 32 then "\\u00" ++ hexDigit (c.toNat / 16) ++ hexDigit (c.toNat % 16)
  else String.singleton c

/-- A JSON string literal: quoted and escaped. -/
def jsonQuote (s : String) : String :=
  "\"" ++ String.join (s.data.map escapeJsonChar) ++ "\""

mutual

/-- Model of `JSON.stringify` on the `Json` fragment: object fields in
insertion order, no added whitespace. -/
def stringify : Json → String
  | Json.str s => jsonQuote s
  | Json.num n => toString n
  | Json.bool b => if b then "true" else "false"
  | Json.null => "null"
  | Json.arr items => "[" ++ stringifyItems items ++ "]"
  | Json.obj fields => "\x7b" ++ stringifyFields fields ++ "\x7d"

/-- Comma-separated serialization of array items. -/
def stringifyItems : List Json → String
  | [] => ""
  | [v] => stringify v
  | v :: w :: vs => stringify v ++ "," ++ stringifyItems (w :: vs)

/-- Comma-separated serialization of object fields. -/
def stringifyFields : List (String × Json) → String
  | [] => ""
  | [(k, v)] => jsonQuote k ++ ":" ++ stringify v
  | (k, v) :: f :: fs => jsonQuote k ++ ":" ++ stringify v ++ "," ++ stringifyFields (f :: fs)

end

/-- The argument of `Reply.from` in the source has type `object | string`:
either a textual payload or a structured (JSON) one. -/
inductive ReplyPayload where
  | str (s : String)
  | obj (v : Json)

/-- The `Reply` class: status, optional byte payload (the source only ever
constructs `Buffer` payloads via `Reply.from`, and the coordinator writes
the bytes verbatim), optional headers record. -/
structure Reply where
  status : Nat
  data : Option Bytes
  headers : Option (List (String × String))
deriving DecidableEq

/-- `Reply.from(obj, status)` (named `fromPayload` in the spec; `from` is a
reserved word in Lean): a string payload is UTF-8 encoded with a
`Content-Type` of `plain/text; charset=utf-8`; any other payload is
JSON-serialized eagerly and UTF-8 encoded with
`application/json; charset=utf-8`. -/
def Reply.fromPayload (obj : ReplyPayload) (status : Nat) : Reply :=
  match obj with
  | ReplyPayload.str s =>
      ⟨status, some (utf8 s), some [("Content-Type", "plain/text; charset=utf-8")]⟩
  | ReplyPayload.obj v =>
      ⟨status, some (utf8 (stringify v)), some [("Content-Type", "application/json; charset=utf-8")]⟩

/-- `Reply.from(obj)` with the `status` argument omitted: the source
declares `status: number = 200`. -/
def Reply.fromPayloadDefault (obj : ReplyPayload) : Reply :=
  Reply.fromPayload obj 200

/-- Splitting on `'/'` keeping only non-empty groups, structurally
recursive over the character list; `acc` holds the current group reversed. -/
def segsAux : List Char → List Char → List String
  | [], acc => if acc.isEmpty then [] else [String.mk acc.reverse]
  | c :: cs, acc =>
      if c = '/' then
        if acc.isEmpty then segsAux cs []
        else String.mk acc.reverse :: segsAux cs []
      else segsAux cs (c :: acc)

/-- Model of `path.split('/').filter(Boolean)`: the non-empty
`'/'`-separated segments of a path. -/
def splitSegs (s : String) : List String :=
  segsAux s.data []

/-- Model of `sample.startsWith(':')`. -/
def isNamedSeg (s : String) : Bool :=
  match s.data with
  | c :: _ => c = ':'
  | [] => false

/-- Model of `sample.substr(1)`: the capture name of a named segment. -/
def segName (s : String) : String :=
  String.mk (s.data.drop 1)

/-- Model of `record[key] = value` on a JavaScript string-keyed record
represented as an association list in insertion order: an existing key is
updated in place, a new key is appended. -/
def recordSet (r : List (String × String)) (k v : String) : List (String × String) :=
  if r.any (fun p => p.1 == k) then
    r.map (fun p => if p.1 == k then (k, v) else p)
  else r ++ [(k, v)]

/-- The pairwise segment walk of the matcher returned by `pathToMatcher`:
a named pattern segment records the candidate segment under its capture
name, a literal one must equal the candidate exactly, otherwise the whole
match fails (`none`). -/
def matchSegs : List String → List String → List (String × String) → Option (List (String × String))
  | [], [], acc => some acc
  | s :: ss, q :: qs, acc =>
      if isNamedSeg s then matchSegs ss qs (recordSet acc (segName s) q)
      else if s = q then matchSegs ss qs acc
      else none
  | _, _, _ => none

/-- `pathToMatcher(path)(pathname)`: split both into non-empty segments,
fail on differing counts, otherwise walk the segments pairwise. -/
def pathToMatcher (path : String) (pathname : String) : Option (List (String × String)) :=
  let samples := splitSegs path
  let parts := splitSegs pathname
  if parts.length ≠ samples.length then none
  else matchSegs samples parts []

/-- The immutable per-request context handed to a handler. -/
structure Context where
  data : Option Bytes
  headers : List (String × String)
  method : String
  pathname : String
  pathParams : List (String × String)
  searchParams : List (String × String)
deriving DecidableEq

/-- Outcome of awaiting a handler: a `Reply`, or a raised error carrying an
optional message (`none` models a thrown value without a `message`
property). -/
inductive HandlerResult where
  | ok (reply : Reply)
  | error (msg : Option String)
deriving DecidableEq

/-- A route handler. -/
abbrev Handler := Context → HandlerResult

/-- A registry entry as pushed by `on`: the raw pattern string and the
handler.  `on` always stores `match := pathToMatcher(path)`, so the matcher
field is represented by applying `pathToMatcher` to `path`. -/
structure Route where
  path : String
  handler : Handler

/-- The response the coordinator emits on the wire: status, headers, body
bytes; the stream is always finalized exactly once (`res.end()` in every
branch), so finalization carries no extra state. -/
structure HttpResponse where
  status : Nat
  headers : List (String × String)
  body : Bytes
deriving DecidableEq

/-- The fixed allowed method set. -/
def supportedHttpMethods : List String :=
  ["OPTIONS", "GET", "POST", "PUT", "DELETE"]

/-- Model of `String.prototype.toUpperCase` (ASCII, which covers method
names). -/
def toUpperStr (s : String) : String :=
  String.mk (s.data.map Char.toUpper)

/-- `this.supportedHttpMethods.includes(method)` where `method` is
`req.method?.toUpperCase()` and may be `undefined`. -/
def methodAllowed : Option String → Bool
  | some m => supportedHttpMethods.contains m
  | none => false

/-- One `data` event of `readAll`: the first chunk initializes the
accumulator (`Buffer.concat([chunk])`), later ones are appended. -/
def readAllStep (result : Option Bytes) (chunk : Bytes) : Option Bytes :=
  match result with
  | some r => some (r ++ chunk)
  | none => some chunk

/-- Model of `readAll(rs)`: fold the arrival-ordered chunk list through the
`data` listener; the promise resolves with the accumulator at the `end`
event — `null` when no chunk ever arrived. -/
def readAll (chunks : List Bytes) : Option Bytes :=
  chunks.foldl readAllStep none

/-- Concatenation of all chunks in arrival order. -/
def concatChunks (chunks : List Bytes) : Bytes :=
  chunks.foldl (fun acc c => acc ++ c) []

/-- `(err as Error).message || 'unknown error'`: the raised message, with a
missing or empty message replaced by the fixed fallback string. -/
def errBody : Option String → String
  | some m => if m = "" then "unknown error" else m
  | none => "unknown error"

/-- Lines 149-161 of the source: a successful reply is written with its
status, headers (none supplied means none written) and payload bytes; a
raised error yields 500 with the fallback-completed message as body. -/
def respond : HandlerResult → HttpResponse
  | HandlerResult.ok reply => ⟨reply.status, reply.headers.getD [], reply.data.getD []⟩
  | HandlerResult.error m => ⟨500, [], utf8 (errBody m)⟩

/-- The route-selection loop of `handleRequest`: the first route (in list
order) whose matcher returns a record — `{}` is truthy in JavaScript, so
any non-`null` result selects the route. -/
def findRoute : List Route → String → Option (Route × List (String × String))
  | [], _ => none
  | route :: rest, pathname =>
      match pathToMatcher route.path pathname with
      | some ps => some (route, ps)
      | none => findRoute rest pathname

/-- An inbound request as delivered by the transport: raw method (possibly
absent), WHATWG-parsed pathname and query, headers, and the body stream's
data chunks in arrival order. -/
structure Request where
  method : Option String
  pathname : String
  headers : List (String × String)
  searchParams : List (String × String)
  bodyChunks : List Bytes

/-- `url.pathname || '/'`. -/
def normPathname (p : String) : String :=
  if p = "" then "/" else p

/-- Lines 140-147: the frozen context; the body is read to completion only
for POST and PUT, otherwise `null`. -/
def mkContext (req : Request) (m : String) (pathname : String)
    (ps : List (String × String)) : Context :=
  { data := if m == "POST" || m == "PUT" then readAll req.bodyChunks else none,
    headers := req.headers,
    method := m,
    pathname := pathname,
    pathParams := ps,
    searchParams := req.searchParams }

/-- `HttpServer.handleRequest`: 405 on an unsupported method (before any
route lookup or body read), 404 when no route matches, otherwise the body
is buffered if the method carries one, the context built, the handler
awaited and its outcome written. -/
def handleRequest (routes : List Route) (req : Request) : HttpResponse :=
  if !(methodAllowed (req.method.map toUpperStr)) then ⟨405, [], []⟩
  else
    match findRoute routes (normPathname req.pathname) with
    | none => ⟨404, [], []⟩
    | some (route, ps) =>
        respond (route.handler
          (mkContext req ((req.method.map toUpperStr).getD "") (normPathname req.pathname) ps))

/-- Decidability of the sort comparator's order. -/
instance routeOrderDec :
    DecidableRel (fun a b : Route => b.path.length ≤ a.path.length) :=
  fun a b => Nat.decLe b.path.length a.path.length

instance routeOrderTotal :
    IsTotal Route (fun a b => b.path.length ≤ a.path.length) :=
  ⟨fun a b => Nat.le_total b.path.length a.path.length⟩

instance routeOrderTrans :
    IsTrans Route (fun a b => b.path.length ≤ a.path.length) :=
  ⟨fun _ _ _ h1 h2 => Nat.le_trans h2 h1⟩

/-- `this.routes.sort((a, b) => b.path.length - a.path.length)` in `serve`:
a stable sort by descending raw-pattern-string length, modelled by stable
insertion sort. -/
def sortRoutes (routes : List Route) : List Route :=
  List.insertionSort (fun a b => b.path.length ≤ a.path.length) routes

/-- `serve` followed by one dispatched request: the registry is sorted once
at startup, then each request is handled against the sorted registry. -/
def serve (registered : List Route) (req : Request) : HttpResponse :=
  handleRequest (sortRoutes registered) req

/-- Capture names of a pattern, in segment order. -/
def captureNames (pat : String) : List String :=
  ((splitSegs pat).filter (fun s => isNamedSeg s)).map segName

/-- A pattern with only literal segments. -/
def noNamed (pat : String) : Bool :=
  (splitSegs pat).all (fun s => !(isNamedSeg s))

/-- All literal pattern segments equal their candidate counterparts (and
the segment counts agree). -/
def literalsAlign : List String → List String → Bool
  | [], [] => true
  | s :: ss, q :: qs => (isNamedSeg s || s == q) && literalsAlign ss qs
  | _, _ => false

/-- The expected capture record: each named segment's candidate value,
verbatim, under the capture name, in segment order. -/
def captures : List String → List String → List (String × String)
  | s :: ss, q :: qs =>
      if isNamedSeg s then (segName s, q) :: captures ss qs else captures ss qs
  | _, _ => []

/-! ### Helper lemmas about the path matcher -/

theorem literalsAlign_length {ss qs : List String} (h : literalsAlign ss qs = true) :
    ss.length = qs.length := by
  induction ss generalizing qs with
  | nil => cases qs with
    | nil => rfl
    | cons q qs => simp [literalsAlign] at h
  | cons s ss ih =>
    cases qs with
    | nil => simp [literalsAlign] at h
    | cons q qs =>
      simp only [literalsAlign, Bool.and_eq_true] at h
      simp [ih h.2]

theorem matchSegs_isSome (ss : List String) :
    ∀ (qs : List String) (acc : List (String × String)),
      (matchSegs ss qs acc).isSome = literalsAlign ss qs := by
  induction ss with
  | nil =>
    intro qs acc
    cases qs <;> simp [matchSegs, literalsAlign]
  | cons s ss ih =>
    intro qs acc
    cases qs with
    | nil => simp [matchSegs, literalsAlign]
    | cons q qs =>
      by_cases hn : isNamedSeg s = true
      · simp [matchSegs, literalsAlign, hn, ih]
      · have hn' : isNamedSeg s = false := by simpa using hn
        by_cases he : s = q
        · subst he
          simp [matchSegs, literalsAlign, hn', ih]
        · have he' : (s == q) = false := by simpa using he
          simp [matchSegs, literalsAlign, hn', he, he']

theorem recordSet_of_newKey {acc : List (String × String)} {k : String}
    (h : ∀ pr ∈ acc, pr.1 ≠ k) (v : String) :
    recordSet acc k v = acc ++ [(k, v)] := by
  have hany : acc.any (fun p => p.1 == k) = false := by
    simp only [List.any_eq_false]
    intro pr hpr
    simpa using h pr hpr
  simp [recordSet, hany]

theorem matchSegs_eq_captures (ss : List String) :
    ∀ (qs : List String) (acc res : List (String × String)),
      (∀ n ∈ ((ss.filter (fun s => isNamedSeg s)).map segName), ∀ pr ∈ acc, pr.1 ≠ n) →
      ((ss.filter (fun s => isNamedSeg s)).map segName).Nodup →
      matchSegs ss qs acc = some res → res = acc ++ captures ss qs := by
  induction ss with
  | nil =>
    intro qs acc res _ _ hm
    cases qs with
    | nil =>
      simp only [matchSegs, Option.some_inj] at hm
      simp [captures, ← hm]
    | cons q qs => simp [matchSegs] at hm
  | cons s ss ih =>
    intro qs acc res hdisj hnodup hm
    cases qs with
    | nil => simp [matchSegs] at hm
    | cons q qs =>
      by_cases hn : isNamedSeg s = true
      · rw [matchSegs, if_pos hn] at hm
        have hmemName : segName s ∈ ((s :: ss).filter (fun s => isNamedSeg s)).map segName := by
          simp [List.filter_cons, hn]
        have hset : recordSet acc (segName s) q = acc ++ [(segName s, q)] :=
          recordSet_of_newKey (hdisj (segName s) hmemName) q
        rw [hset] at hm
        have hnames : ((s :: ss).filter (fun s => isNamedSeg s)).map segName
            = segName s :: ((ss.filter (fun s => isNamedSeg s)).map segName) := by
          simp [List.filter_cons, hn]
        rw [hnames] at hdisj hnodup
        have hnotin : segName s ∉ (ss.filter (fun s => isNamedSeg s)).map segName :=
          (List.nodup_cons.mp hnodup).1
        have hdisj' : ∀ n ∈ ((ss.filter (fun s => isNamedSeg s)).map segName),
            ∀ pr ∈ acc ++ [(segName s, q)], pr.1 ≠ n := by
          intro n hnmem pr hpr
          rcases List.mem_append.mp hpr with hacc | hone
          · exact hdisj n (List.mem_cons_of_mem _ hnmem) pr hacc
          · have hpr : pr = (segName s, q) := by simpa using hone
            subst hpr
            intro hcontra
            rw [← hcontra] at hnmem
            exact hnotin hnmem
        have := ih qs (acc ++ [(segName s, q)]) res hdisj' (List.nodup_cons.mp hnodup).2 hm
        rw [this, captures, if_pos hn, List.append_assoc]
        rfl
      · have hn' : isNamedSeg s = false := by simpa using hn
        rw [matchSegs, if_neg (by simp [hn'])] at hm
        by_cases he : s = q
        · rw [if_pos he] at hm
          have hnames : ((s :: ss).filter (fun s => isNamedSeg s)).map segName
              = (ss.filter (fun s => isNamedSeg s)).map segName := by
            simp [List.filter_cons, hn']
          rw [hnames] at hdisj hnodup
          have := ih qs acc res hdisj hnodup hm
          rw [this, captures, if_neg (by simp [hn'])]
        · rw [if_neg he] at hm
          exact absurd hm (by simp)

theorem literalsAlign_of_noNamed {ss : List String}
    (h : ∀ s ∈ ss, isNamedSeg s = false) :
    ∀ qs, literalsAlign ss qs = true ↔ ss = qs := by
  induction ss with
  | nil => intro qs; cases qs <;> simp [literalsAlign]
  | cons s ss ih =>
    intro qs
    cases qs with
    | nil => simp [literalsAlign]
    | cons q qs =>
      have hs : isNamedSeg s = false := h s (List.mem_cons_self s ss)
      have ih' := ih (fun x hx => h x (List.mem_cons_of_mem s hx)) qs
      simp [literalsAlign, hs, ih']

theorem captures_of_noNamed {ss : List String}
    (h : ∀ s ∈ ss, isNamedSeg s = false) :
    ∀ qs, captures ss qs = [] := by
  induction ss with
  | nil => intro qs; cases qs <;> rfl
  | cons s ss ih =>
    intro qs
    cases qs with
    | nil => rfl
    | cons q qs =>
      have hs : isNamedSeg s = false := h s (List.mem_cons_self s ss)
      rw [captures, if_neg (by simp [hs])]
      exact ih (fun x hx => h x (List.mem_cons_of_mem s hx)) qs

theorem pathToMatcher_isSome (pat p : String) :
    (pathToMatcher pat p).isSome = literalsAlign (splitSegs pat) (splitSegs p) := by
  unfold pathToMatcher
  by_cases h : (splitSegs p).length = (splitSegs pat).length
  · simp [h, matchSegs_isSome]
  · have hfalse : literalsAlign (splitSegs pat) (splitSegs p) = false := by
      cases hla : literalsAlign (splitSegs pat) (splitSegs p) with
      | false => rfl
      | true => exact absurd (literalsAlign_length hla).symm h
    simp [h, hfalse]

theorem pathToMatcher_some {pat p : String} {res : List (String × String)}
    (hnodup : (captureNames pat).Nodup)
    (hm : pathToMatcher pat p = some res) :
    res = captures (splitSegs pat) (splitSegs p) := by
  unfold pathToMatcher at hm
  by_cases h : (splitSegs p).length = (splitSegs pat).length
  · rw [if_neg (by simp [h])] at hm
    have := matchSegs_eq_captures (splitSegs pat) (splitSegs p) [] res
      (by intro n _ pr hpr; simp at hpr) hnodup hm
    simpa using this
  · rw [if_pos h] at hm
    exact absurd hm (by simp)

theorem noNamed_iff {pat : String} :
    noNamed pat = true ↔ ∀ s ∈ splitSegs pat, isNamedSeg s = false := by
  simp [noNamed]

/-! ### Helper lemmas about the route registry -/

theorem findRoute_first (p : String) (ps : List (String × String)) (route : Route) :
    ∀ (pre rest : List Route),
      (∀ r' ∈ pre, pathToMatcher r'.path p = none) →
      pathToMatcher route.path p = some ps →
      findRoute (pre ++ route :: rest) p = some (route, ps) := by
  intro pre
  induction pre with
  | nil =>
    intro rest _ hmatch
    simp [findRoute, hmatch]
  | cons r pre ih =>
    intro rest hnone hmatch
    have hr : pathToMatcher r.path p = none := hnone r (List.mem_cons_self r pre)
    have hrest : ∀ r' ∈ pre, pathToMatcher r'.path p = none :=
      fun r' hr' => hnone r' (List.mem_cons_of_mem r hr')
    simp only [List.cons_append, findRoute, hr]
    exact ih rest hrest hmatch

theorem findRoute_map_handler (f : Handler) (p : String) :
    ∀ (routes : List Route),
      findRoute (routes.map (fun r => ⟨r.path, f⟩)) p =
        (findRoute routes p).map (fun rp => (⟨rp.1.path, f⟩, rp.2)) := by
  intro routes
  induction routes with
  | nil => rfl
  | cons r rs ih =>
    simp only [List.map_cons, findRoute]
    cases pathToMatcher r.path p with
    | none => simpa using ih
    | some ps => rfl

/-! ### Helper lemmas about body buffering -/

theorem foldl_readAllStep_some (l : List Bytes) :
    ∀ (r : Bytes), l.foldl readAllStep (some r) = some (l.foldl (fun acc c => acc ++ c) r) := by
  induction l with
  | nil => intro r; rfl
  | cons c cs ih =>
    intro r
    simp only [List.foldl_cons, readAllStep]
    exact ih (r ++ c)

theorem readAll_cons (c : Bytes) (cs : List Bytes) :
    readAll (c :: cs) = some (concatChunks (c :: cs)) := by
  unfold readAll concatChunks
  simp only [List.foldl_cons, readAllStep, List.nil_append]
  exact foldl_readAllStep_some cs c

theorem readAll_nil : readAll [] = none := rfl

/-! ### Helper lemmas about the sort in `serve` -/

theorem filter_orderedInsert_eq (x : Route) :
    ∀ (l : List Route),
      (List.orderedInsert (fun a b => b.path.length ≤ a.path.length) x l).filter
          (fun r => r.path.length == x.path.length) =
        x :: l.filter (fun r => r.path.length == x.path.length) := by
  intro l
  induction l with
  | nil => simp [List.orderedInsert]
  | cons y ys ih =>
    by_cases h : y.path.length ≤ x.path.length
    · simp [List.orderedInsert, h]
    · have hy : (y.path.length == x.path.length) = false := by
        simp only [beq_eq_false_iff_ne, ne_eq]
        omega
      simp [List.orderedInsert, h, hy, ih]

theorem filter_orderedInsert_ne (x : Route) (n : Nat)
    (hx : (x.path.length == n) = false) :
    ∀ (l : List Route),
      (List.orderedInsert (fun a b => b.path.length ≤ a.path.length) x l).filter
          (fun r => r.path.length == n) =
        l.filter (fun r => r.path.length == n) := by
  intro l
  induction l with
  | nil => simp [List.orderedInsert, hx]
  | cons y ys ih =>
    by_cases h : y.path.length ≤ x.path.length
    · simp [List.orderedInsert, h, hx]
    · simp only [List.orderedInsert, if_neg h]
      cases hy : (y.path.length == n) <;> simp [List.filter_cons, hy, ih]

theorem sortRoutes_sorted (rs : List Route) :
    List.Sorted (fun a b => b.path.length ≤ a.path.length) (sortRoutes rs) :=
  List.sorted_insertionSort _ rs

theorem sortRoutes_filter (n : Nat) :
    ∀ (rs : List Route),
      (sortRoutes rs).filter (fun r => r.path.length == n) =
        rs.filter (fun r => r.path.length == n) := by
  intro rs
  induction rs with
  | nil => rfl
  | cons x xs ih =>
    show (List.orderedInsert _ x (sortRoutes xs)).filter _ = _
    by_cases h : x.path.length = n
    · subst h
      rw [filter_orderedInsert_eq, ih]
      simp [List.filter_cons]
    · have hx : (x.path.length == n) = false := by simp [h]
      rw [filter_orderedInsert_ne x n hx, ih]
      simp [List.filter_cons, hx]

/-! ### Helper lemmas about the coordinator -/

theorem handleRequest_dispatch (routes : List Route) (req : Request) (route : Route)
    (ps : List (String × String)) (m : String)
    (hm : req.method.map toUpperStr = some m)
    (hallow : methodAllowed (some m) = true)
    (hfind : findRoute routes (normPathname req.pathname) = some (route, ps)) :
    handleRequest routes req =
      respond (route.handler (mkContext req m (normPathname req.pathname) ps)) := by
  simp [handleRequest, hm, hallow, hfind]

theorem methodAllowed_of_bodyMethod {m : String}
    (h : (m == "POST" || m == "PUT") = true) : methodAllowed (some m) = true := by
  rcases Bool.or_eq_true_iff.mp h with h' | h' <;>
    · rw [beq_iff_eq] at h'
      subst h'
      decide

example : splitSegs "/a//b/" = ["a", "b"] := by decide
example : pathToMatcher "/a/:x" "/a/b" = some [("x", "b")] := by decide
example : pathToMatcher "/a/b" "/a/c" = none := by decide
example : readAll [[1, 2], [3]] = some [1, 2, 3] := by decide
example : stringify (Json.obj [("x", Json.num 1)]) = "\x7b\"x\":1\x7d" := by decide
example : utf8 "hi" = [104, 105] := by decide

/-! ### Claim theorems -/

/-- C1 counterexample: a handler that raises an error without a message
yields a 500 response whose body is the UTF-8 bytes of the fixed string
"unknown error" — not an empty body as the claim states
(`(err as Error).message || 'unknown error'` in the source). -/
theorem claim_C1_counterexample :
    handleRequest [⟨"/", fun _ => HandlerResult.error none⟩]
        ⟨some "GET", "/", [], [], []⟩ = ⟨500, [], utf8 "unknown error"⟩ ∧
    utf8 "unknown error" ≠ ([] : Bytes) := by
  exact ⟨by decide, by decide⟩

/-- C1 (amended): for every request whose selected handler raises an error
during its execution, the coordinator emits status 500 whose body is the
error's message when a non-empty message is available, and the fixed
fallback string "unknown error" otherwise. -/
theorem claim_C1_amended :
    ∀ (routes : List Route) (req : Request) (route : Route)
      (ps : List (String × String)) (m : String) (msg : Option String),
      req.method.map toUpperStr = some m →
      methodAllowed (some m) = true →
      findRoute routes (normPathname req.pathname) = some (route, ps) →
      route.handler (mkContext req m (normPathname req.pathname) ps) =
        HandlerResult.error msg →
      handleRequest routes req =
        ⟨500, [],
          utf8 (match msg with
                | some s => if s = "" then "unknown error" else s
                | none => "unknown error")⟩ := by
  intro routes req route ps m msg hm hallow hfind herr
  rw [handleRequest_dispatch routes req route ps m hm hallow hfind, herr]
  cases msg with
  | none => rfl
  | some s => rfl

/-- Witness for C1 (amended): a handler raising an error with message
"boom" yields status 500 and body bytes "boom". -/
theorem claim_C1_witness :
    handleRequest [⟨"/", fun _ => HandlerResult.error (some "boom")⟩]
        ⟨some "GET", "/", [], [], []⟩ = ⟨500, [], utf8 "boom"⟩ := by
  have h := claim_C1_amended [⟨"/", fun _ => HandlerResult.error (some "boom")⟩]
      ⟨some "GET", "/", [], [], []⟩ ⟨"/", fun _ => HandlerResult.error (some "boom")⟩
      [] "GET" (some "boom") rfl (by decide) rfl rfl
  exact h

/-- C2: `fromPayload("hello")` yields status 200 and body bytes `hello`,
but the header the source attaches is `Content-Type:
plain/text; charset=utf-8` — a typo for the `text/plain; charset=utf-8`
media type the claim (and any standards-compliant intent) states. -/
theorem claim_C2_content_type :
    Reply.fromPayloadDefault (ReplyPayload.str "hello") =
      ⟨200, some (utf8 "hello"), some [("Content-Type", "plain/text; charset=utf-8")]⟩ ∧
    "plain/text; charset=utf-8" ≠ "text/plain; charset=utf-8" := by
  exact ⟨rfl, by decide⟩

/-- C3: the registry sorts entries by descending raw-pattern-string length
(a stable sort, so equal lengths preserve registration order — stated via
the sortedness of `sortRoutes` and preservation of each equal-length
subsequence), resolution selects the first entry in that order whose
matcher succeeds, and with `/a/b` and `/a/:x` both registered a request to
`/a/b` resolves to the `/a/:x` handler (observable through its status 201
and the captured parameter echoed into the headers). -/
theorem claim_C3_precedence :
    (∀ rs : List Route,
        List.Sorted (fun a b => b.path.length ≤ a.path.length) (sortRoutes rs)) ∧
    (∀ (rs : List Route) (n : Nat),
        (sortRoutes rs).filter (fun r => r.path.length == n) =
          rs.filter (fun r => r.path.length == n)) ∧
    (∀ (pre : List Route) (route : Route) (rest : List Route) (p : String)
        (ps : List (String × String)),
        (∀ r' ∈ pre, pathToMatcher r'.path p = none) →
        pathToMatcher route.path p = some ps →
        findRoute (pre ++ route :: rest) p = some (route, ps)) ∧
    serve
        [⟨"/a/b", fun _ => HandlerResult.ok ⟨202, none, none⟩⟩,
         ⟨"/a/:x", fun ctx => HandlerResult.ok ⟨201, none, some ctx.pathParams⟩⟩]
        ⟨some "GET", "/a/b", [], [], []⟩ = ⟨201, [("x", "b")], []⟩ := by
  refine ⟨sortRoutes_sorted, ?_, ?_, ?_⟩
  · intro rs n
    exact sortRoutes_filter n rs
  · intro pre route rest p ps hnone hmatch
    exact findRoute_first p ps route pre rest hnone hmatch
  · decide

/-- Witness for C3: applying the first-match resolution rule to a concrete
registry in which a non-matching entry precedes `/a/:x`. -/
theorem claim_C3_witness :
    findRoute
        [⟨"/xyz", fun _ => HandlerResult.error none⟩,
         ⟨"/a/:x", fun _ => HandlerResult.error none⟩] "/a/b" =
      some (⟨"/a/:x", fun _ => HandlerResult.error none⟩, [("x", "b")]) := by
  have h := claim_C3_precedence.2.2.1
      [⟨"/xyz", fun _ => HandlerResult.error none⟩]
      ⟨"/a/:x", fun _ => HandlerResult.error none⟩ [] "/a/b" [("x", "b")]
      (by
        intro r' hr'
        rw [List.mem_singleton] at hr'
        subst hr'
        rfl)
      rfl
  exact h

/-- C4: the matcher fails on differing segment counts; otherwise it
succeeds exactly when every literal pattern segment equals its candidate
segment (case-sensitive), recording each named segment's candidate value
verbatim under its capture name (for patterns whose capture names are
distinct — behaviour on repeated names is unspecified by the spec); for a
literal-only pattern, success holds exactly when the candidate's segment
list equals the pattern's (i.e. equality up to leading/trailing/duplicate
slashes), with an empty parameter mapping. -/
theorem claim_C4_matcher :
    ∀ (pat p : String),
      ((splitSegs p).length ≠ (splitSegs pat).length → pathToMatcher pat p = none) ∧
      ((pathToMatcher pat p).isSome = literalsAlign (splitSegs pat) (splitSegs p)) ∧
      ((captureNames pat).Nodup → ∀ res, pathToMatcher pat p = some res →
          res = captures (splitSegs pat) (splitSegs p)) ∧
      (noNamed pat = true →
          (((pathToMatcher pat p).isSome = true) ↔ splitSegs pat = splitSegs p) ∧
          (∀ res, pathToMatcher pat p = some res → res = [])) := by
  intro pat p
  refine ⟨?_, pathToMatcher_isSome pat p, ?_, ?_⟩
  · intro h
    simp [pathToMatcher, h]
  · intro hnodup res hm
    exact pathToMatcher_some hnodup hm
  · intro hnn
    have hforall := noNamed_iff.mp hnn
    have hfil : (splitSegs pat).filter (fun s => isNamedSeg s) = [] :=
      List.filter_eq_nil_iff.mpr fun a ha => by simp [hforall a ha]
    constructor
    · rw [pathToMatcher_isSome]
      exact literalsAlign_of_noNamed hforall (splitSegs p)
    · intro res hm
      have hnodup : (captureNames pat).Nodup := by
        simp [captureNames, hfil]
      rw [pathToMatcher_some hnodup hm, captures_of_noNamed hforall]

/-- Witness for C4: the pattern `/a/:x` has distinct capture names and
matching it against `/a/b` records `b` under `x`. -/
theorem claim_C4_witness :
    (captureNames "/a/:x").Nodup ∧
    [("x", "b")] = captures (splitSegs "/a/:x") (splitSegs "/a/b") := by
  have hnodup : (captureNames "/a/:x").Nodup := by decide
  exact ⟨hnodup, (claim_C4_matcher "/a/:x" "/a/b").2.2.1 hnodup [("x", "b")] (by decide)⟩

/-- C5: a request whose uppercased method is outside
`{OPTIONS, GET, POST, PUT, DELETE}` yields 405 with an empty body; the
outcome is independent of the registered routes (no route lookup) and of
the body chunks (no body read). -/
theorem claim_C5_unsupported_method :
    ∀ (routes : List Route) (req : Request),
      methodAllowed (req.method.map toUpperStr) = false →
      handleRequest routes req = ⟨405, [], []⟩ ∧
      (∀ routes' : List Route, handleRequest routes' req = ⟨405, [], []⟩) ∧
      (∀ chunks : List Bytes,
          handleRequest routes
            ⟨req.method, req.pathname, req.headers, req.searchParams, chunks⟩ =
            ⟨405, [], []⟩) := by
  intro routes req h
  refine ⟨?_, fun routes' => ?_, fun chunks => ?_⟩ <;> simp [handleRequest, h]

/-- Witness for C5: method `PATCH` is rejected with 405. -/
theorem claim_C5_witness :
    methodAllowed ((some "PATCH").map toUpperStr) = false ∧
    handleRequest [] ⟨some "PATCH", "/", [], [], []⟩ = ⟨405, [], []⟩ := by
  exact ⟨by decide,
    (claim_C5_unsupported_method [] ⟨some "PATCH", "/", [], [], []⟩ (by decide)).1⟩

/-- C6: when no registered route's matcher succeeds on the pathname (for a
request that passed the method check), the coordinator emits 404 with an
empty body, and the outcome is unchanged if every handler is replaced —
no handler is invoked; moreover route selection is a function: at most one
(route, parameters) pair is selected per request. -/
theorem claim_C6_no_match_404 :
    ∀ (routes : List Route) (req : Request),
      (methodAllowed (req.method.map toUpperStr) = true →
        findRoute routes (normPathname req.pathname) = none →
        handleRequest routes req = ⟨404, [], []⟩ ∧
        (∀ f : Handler,
            handleRequest (routes.map (fun r => ⟨r.path, f⟩)) req = ⟨404, [], []⟩)) ∧
      (∀ (r1 r2 : Route) (ps1 ps2 : List (String × String)),
          findRoute routes (normPathname req.pathname) = some (r1, ps1) →
          findRoute routes (normPathname req.pathname) = some (r2, ps2) →
          r1 = r2 ∧ ps1 = ps2) := by
  intro routes req
  constructor
  · intro hm hnone
    constructor
    · simp [handleRequest, hm, hnone]
    · intro f
      have hmapped :
          findRoute (routes.map (fun r => ⟨r.path, f⟩)) (normPathname req.pathname) = none := by
        rw [findRoute_map_handler, hnone]
        rfl
      simp [handleRequest, hm, hmapped]
  · intro r1 r2 ps1 ps2 h1 h2
    rw [h1] at h2
    simp only [Option.some_inj, Prod.mk.injEq] at h2
    exact h2

/-- Witness for C6: a request to `/b` against a registry holding only `/a`
yields 404. -/
theorem claim_C6_witness :
    handleRequest [⟨"/a", fun _ => HandlerResult.ok ⟨200, none, none⟩⟩]
        ⟨some "GET", "/b", [], [], []⟩ = ⟨404, [], []⟩ := by
  exact ((claim_C6_no_match_404 [⟨"/a", fun _ => HandlerResult.ok ⟨200, none, none⟩⟩]
      ⟨some "GET", "/b", [], [], []⟩).1 (by decide) rfl).1

/-- C7: for a matched POST or PUT request the handler observes a context
whose body field is the result of consuming the whole chunk stream, and on
a non-empty stream that result is the in-order concatenation of all
chunks into one contiguous buffer; for any other allowed method the
context body is absent. -/
theorem claim_C7_body_buffering :
    ∀ (routes : List Route) (req : Request) (route : Route)
      (ps : List (String × String)) (m : String),
      req.method.map toUpperStr = some m →
      findRoute routes (normPathname req.pathname) = some (route, ps) →
      ((m == "POST" || m == "PUT") = true →
        handleRequest routes req =
          respond (route.handler
            { data := readAll req.bodyChunks, headers := req.headers, method := m,
              pathname := normPathname req.pathname, pathParams := ps,
              searchParams := req.searchParams }) ∧
        (∀ (c : Bytes) (cs : List Bytes), req.bodyChunks = c :: cs →
            readAll req.bodyChunks = some (concatChunks (c :: cs)))) ∧
      ((m == "POST" || m == "PUT") = false →
        methodAllowed (some m) = true →
        handleRequest routes req =
          respond (route.handler
            { data := none, headers := req.headers, method := m,
              pathname := normPathname req.pathname, pathParams := ps,
              searchParams := req.searchParams })) := by
  intro routes req route ps m hm hfind
  constructor
  · intro hb
    have hallow := methodAllowed_of_bodyMethod hb
    refine ⟨?_, ?_⟩
    · rw [handleRequest_dispatch routes req route ps m hm hallow hfind]
      simp [mkContext, hb]
    · intro c cs hcs
      rw [hcs]
      exact readAll_cons c cs
  · intro hb hallow
    rw [handleRequest_dispatch routes req route ps m hm hallow hfind]
    simp [mkContext, hb]

/-- Witness for C7: a POST body delivered as chunks `[1,2]` then `[3]` is
observed by an echoing handler as the single buffer `[1,2,3]`. -/
theorem claim_C7_witness :
    handleRequest [⟨"/", fun ctx => HandlerResult.ok ⟨200, ctx.data, none⟩⟩]
        ⟨some "POST", "/", [], [], [[1, 2], [3]]⟩ = ⟨200, [], [1, 2, 3]⟩ ∧
    readAll [[1, 2], [3]] = some [1, 2, 3] := by
  have h := claim_C7_body_buffering
      [⟨"/", fun ctx => HandlerResult.ok ⟨200, ctx.data, none⟩⟩]
      ⟨some "POST", "/", [], [], [[1, 2], [3]]⟩
      ⟨"/", fun ctx => HandlerResult.ok ⟨200, ctx.data, none⟩⟩ [] "POST" rfl rfl
  exact ⟨(h.1 (by decide)).1, (h.1 (by decide)).2 [1, 2] [[3]] rfl⟩

/-- C8: a structured (object) payload is serialized to its JSON text form
and UTF-8 encoded into the reply's byte payload at construction (the
`Reply` stores the materialized bytes, not the payload), with header
`Content-Type: application/json; charset=utf-8`; concretely the payload
`{x:1}` serializes to the canonical JSON encoding. -/
theorem claim_C8_json_payload :
    (∀ (v : Json) (status : Nat),
        Reply.fromPayload (ReplyPayload.obj v) status =
          ⟨status, some (utf8 (stringify v)),
            some [("Content-Type", "application/json; charset=utf-8")]⟩) ∧
    stringify (Json.obj [("x", Json.num 1)]) = "\x7b\"x\":1\x7d" :=
  ⟨fun _ _ => rfl, by decide⟩

/-- C9: a pattern with no named segments produces the empty parameter
mapping on success, which as `some []` is distinguishable from the
`none` used for NO_MATCH, and the coordinator dispatches a route selected
with an empty mapping to its handler rather than treating it as no
match. -/
theorem claim_C9_empty_match_dispatch :
    (∀ (pat p : String) (res : List (String × String)),
        noNamed pat = true → pathToMatcher pat p = some res → res = []) ∧
    (some ([] : List (String × String)) ≠ (none : Option (List (String × String)))) ∧
    (∀ (routes : List Route) (req : Request) (route : Route) (m : String),
        req.method.map toUpperStr = some m →
        methodAllowed (some m) = true →
        findRoute routes (normPathname req.pathname) = some (route, []) →
        handleRequest routes req =
          respond (route.handler (mkContext req m (normPathname req.pathname) []))) := by
  refine ⟨?_, by simp, ?_⟩
  · intro pat p res hnn hm
    have hforall := noNamed_iff.mp hnn
    have hfil : (splitSegs pat).filter (fun s => isNamedSeg s) = [] :=
      List.filter_eq_nil_iff.mpr fun a ha => by simp [hforall a ha]
    have hnodup : (captureNames pat).Nodup := by
      simp [captureNames, hfil]
    rw [pathToMatcher_some hnodup hm, captures_of_noNamed hforall]
  · intro routes req route m hm hallow hfind
    exact handleRequest_dispatch routes req route [] m hm hallow hfind

/-- Witness for C9: the literal-only pattern `/health` matches `/health`
with an empty mapping and the request is dispatched to the handler, whose
204 (not 404) response is emitted. -/
theorem claim_C9_witness :
    handleRequest [⟨"/health", fun _ => HandlerResult.ok ⟨204, none, none⟩⟩]
        ⟨some "GET", "/health", [], [], []⟩ = ⟨204, [], []⟩ := by
  exact claim_C9_empty_match_dispatch.2.2
      [⟨"/health", fun _ => HandlerResult.ok ⟨204, none, none⟩⟩]
      ⟨some "GET", "/health", [], [], []⟩
      ⟨"/health", fun _ => HandlerResult.ok ⟨204, none, none⟩⟩ "GET" rfl (by decide) rfl

/-- C10: when a POST or PUT body stream ends without delivering any chunk,
`readAll` resolves with its never-assigned `null` accumulator, which is
distinct from an empty buffer, and the handler observes an absent
(`none`) context body. -/
theorem claim_C10_empty_stream_null :
    ∀ (routes : List Route) (req : Request) (route : Route)
      (ps : List (String × String)) (m : String),
      req.method.map toUpperStr = some m →
      (m == "POST" || m == "PUT") = true →
      findRoute routes (normPathname req.pathname) = some (route, ps) →
      req.bodyChunks = [] →
      readAll req.bodyChunks = none ∧
      (none : Option Bytes) ≠ some ([] : Bytes) ∧
      handleRequest routes req =
        respond (route.handler
          { data := none, headers := req.headers, method := m,
            pathname := normPathname req.pathname, pathParams := ps,
            searchParams := req.searchParams }) := by
  intro routes req route ps m hm hb hfind hchunks
  have hallow := methodAllowed_of_bodyMethod hb
  refine ⟨by rw [hchunks]; rfl, by simp, ?_⟩
  rw [handleRequest_dispatch routes req route ps m hm hallow hfind]
  simp [mkContext, hb, hchunks, readAll_nil]

/-- Witness for C10: a POST with an empty body stream hands the handler a
`none` body — the handler below answers 204 exactly on `none`, and 204 is
emitted. -/
theorem claim_C10_witness :
    handleRequest
        [⟨"/", fun ctx =>
            HandlerResult.ok
              ⟨match ctx.data with | none => 204 | some _ => 200, none, none⟩⟩]
        ⟨some "POST", "/", [], [], []⟩ = ⟨204, [], []⟩ ∧
    readAll [] = none := by
  have h := claim_C10_empty_stream_null
      [⟨"/", fun ctx =>
          HandlerResult.ok
            ⟨match ctx.data with | none => 204 | some _ => 200, none, none⟩⟩]
      ⟨some "POST", "/", [], [], []⟩
      ⟨"/", fun ctx =>
          HandlerResult.ok
            ⟨match ctx.data with | none => 204 | some _ => 200, none, none⟩⟩
      [] "POST" rfl (by decide) rfl rfl
  exact ⟨h.2.2, h.1⟩

end ServiceKit
